import Mathlib

/-!
Verification of the Arabic shaping / sanitizing / line-layout code of the
Arabic_OCR repository.

The embedding mirrors, definition by definition:
* `src/unnamed/part_003` (`arabicShaping`): the glyph-form table `MAP`,
  the contextual shaper `shapeArabicText` and the cleaner `sanitizeArabicText`;
* `src/unnamed/part_004` (jsPDF generator): the table `ARABIC_FORMS`,
  `shapeArabicLine`, the RTL word-wrap loop and the page-break loop;
* `src/server/src/utils/exporters.ts` (`exportPdf`, pdf-lib fallback):
  the fallback text measure, the greedy wrap loop, the drawing position
  and the pagination loop.

JavaScript strings are modelled as `List Char` (the sources iterate by code
points via `Array.from` / `[...]`; the characters involved are all in the BMP,
where code units and code points coincide).  JavaScript floating-point widths
are modelled as rationals (`ℚ`).
-/

namespace ArabicOCR

/-- Mirror of part_003's `Forms` record: `initial`/`medial`/`final` are
optional exactly as in the source object literals. -/
structure Forms where
  isolated : Char
  initial : Option Char := none
  medial : Option Char := none
  final : Option Char := none
  joinL : Bool
  joinR : Bool
deriving DecidableEq, Repr

/-- Mirror of part_003's `MAP` literal: base letter ↦ presentation forms,
entry for entry, written with the same code points as the source. -/
def mapList : List (Char × Forms) :=
  [ (Char.ofNat 0x0628, { isolated := Char.ofNat 0xFE8F, initial := some (Char.ofNat 0xFE91), medial := some (Char.ofNat 0xFE92), final := some (Char.ofNat 0xFE90), joinL := true, joinR := true }),
    (Char.ofNat 0x062A, { isolated := Char.ofNat 0xFE95, initial := some (Char.ofNat 0xFE97), medial := some (Char.ofNat 0xFE98), final := some (Char.ofNat 0xFE96), joinL := true, joinR := true }),
    (Char.ofNat 0x062B, { isolated := Char.ofNat 0xFE99, initial := some (Char.ofNat 0xFE9B), medial := some (Char.ofNat 0xFE9C), final := some (Char.ofNat 0xFE9A), joinL := true, joinR := true }),
    (Char.ofNat 0x062C, { isolated := Char.ofNat 0xFE9D, initial := some (Char.ofNat 0xFE9F), medial := some (Char.ofNat 0xFEA0), final := some (Char.ofNat 0xFE9E), joinL := true, joinR := true }),
    (Char.ofNat 0x062D, { isolated := Char.ofNat 0xFEA1, initial := some (Char.ofNat 0xFEA3), medial := some (Char.ofNat 0xFEA4), final := some (Char.ofNat 0xFEA2), joinL := true, joinR := true }),
    (Char.ofNat 0x062E, { isolated := Char.ofNat 0xFEA5, initial := some (Char.ofNat 0xFEA7), medial := some (Char.ofNat 0xFEA8), final := some (Char.ofNat 0xFEA6), joinL := true, joinR := true }),
    (Char.ofNat 0x062F, { isolated := Char.ofNat 0xFEA9, final := some (Char.ofNat 0xFEAA), joinL := false, joinR := true }),
    (Char.ofNat 0x0630, { isolated := Char.ofNat 0xFEAB, final := some (Char.ofNat 0xFEAC), joinL := false, joinR := true }),
    (Char.ofNat 0x0631, { isolated := Char.ofNat 0xFEAD, final := some (Char.ofNat 0xFEAE), joinL := false, joinR := true }),
    (Char.ofNat 0x0632, { isolated := Char.ofNat 0xFEAF, final := some (Char.ofNat 0xFEB0), joinL := false, joinR := true }),
    (Char.ofNat 0x0633, { isolated := Char.ofNat 0xFEB1, initial := some (Char.ofNat 0xFEB3), medial := some (Char.ofNat 0xFEB4), final := some (Char.ofNat 0xFEB2), joinL := true, joinR := true }),
    (Char.ofNat 0x0634, { isolated := Char.ofNat 0xFEB5, initial := some (Char.ofNat 0xFEB7), medial := some (Char.ofNat 0xFEB8), final := some (Char.ofNat 0xFEB6), joinL := true, joinR := true }),
    (Char.ofNat 0x0635, { isolated := Char.ofNat 0xFEB9, initial := some (Char.ofNat 0xFEBB), medial := some (Char.ofNat 0xFEBC), final := some (Char.ofNat 0xFEBA), joinL := true, joinR := true }),
    (Char.ofNat 0x0636, { isolated := Char.ofNat 0xFEBD, initial := some (Char.ofNat 0xFEBF), medial := some (Char.ofNat 0xFEC0), final := some (Char.ofNat 0xFEBE), joinL := true, joinR := true }),
    (Char.ofNat 0x0637, { isolated := Char.ofNat 0xFEC1, initial := some (Char.ofNat 0xFEC3), medial := some (Char.ofNat 0xFEC4), final := some (Char.ofNat 0xFEC2), joinL := true, joinR := true }),
    (Char.ofNat 0x0638, { isolated := Char.ofNat 0xFEC5, initial := some (Char.ofNat 0xFEC7), medial := some (Char.ofNat 0xFEC8), final := some (Char.ofNat 0xFEC6), joinL := true, joinR := true }),
    (Char.ofNat 0x0639, { isolated := Char.ofNat 0xFEC9, initial := some (Char.ofNat 0xFECB), medial := some (Char.ofNat 0xFECC), final := some (Char.ofNat 0xFECA), joinL := true, joinR := true }),
    (Char.ofNat 0x063A, { isolated := Char.ofNat 0xFECD, initial := some (Char.ofNat 0xFECF), medial := some (Char.ofNat 0xFED0), final := some (Char.ofNat 0xFECE), joinL := true, joinR := true }),
    (Char.ofNat 0x0641, { isolated := Char.ofNat 0xFED1, initial := some (Char.ofNat 0xFED3), medial := some (Char.ofNat 0xFED4), final := some (Char.ofNat 0xFED2), joinL := true, joinR := true }),
    (Char.ofNat 0x0642, { isolated := Char.ofNat 0xFED5, initial := some (Char.ofNat 0xFED7), medial := some (Char.ofNat 0xFED8), final := some (Char.ofNat 0xFED6), joinL := true, joinR := true }),
    (Char.ofNat 0x0643, { isolated := Char.ofNat 0xFED9, initial := some (Char.ofNat 0xFEDB), medial := some (Char.ofNat 0xFEDC), final := some (Char.ofNat 0xFEDA), joinL := true, joinR := true }),
    (Char.ofNat 0x0644, { isolated := Char.ofNat 0xFEDD, initial := some (Char.ofNat 0xFEDF), medial := some (Char.ofNat 0xFEE0), final := some (Char.ofNat 0xFEDE), joinL := true, joinR := true }),
    (Char.ofNat 0x0645, { isolated := Char.ofNat 0xFEE1, initial := some (Char.ofNat 0xFEE3), medial := some (Char.ofNat 0xFEE4), final := some (Char.ofNat 0xFEE2), joinL := true, joinR := true }),
    (Char.ofNat 0x0646, { isolated := Char.ofNat 0xFEE5, initial := some (Char.ofNat 0xFEE7), medial := some (Char.ofNat 0xFEE8), final := some (Char.ofNat 0xFEE6), joinL := true, joinR := true }),
    (Char.ofNat 0x0647, { isolated := Char.ofNat 0xFEE9, initial := some (Char.ofNat 0xFEEB), medial := some (Char.ofNat 0xFEEC), final := some (Char.ofNat 0xFEEA), joinL := true, joinR := true }),
    (Char.ofNat 0x0648, { isolated := Char.ofNat 0xFEED, final := some (Char.ofNat 0xFEEE), joinL := false, joinR := true }),
    (Char.ofNat 0x064A, { isolated := Char.ofNat 0xFEF1, initial := some (Char.ofNat 0xFEF3), medial := some (Char.ofNat 0xFEF4), final := some (Char.ofNat 0xFEF2), joinL := true, joinR := true }),
    (Char.ofNat 0x0627, { isolated := Char.ofNat 0xFE8D, final := some (Char.ofNat 0xFE8E), joinL := false, joinR := true }),
    (Char.ofNat 0x0622, { isolated := Char.ofNat 0xFE81, final := some (Char.ofNat 0xFE82), joinL := false, joinR := true }),
    (Char.ofNat 0x0623, { isolated := Char.ofNat 0xFE83, final := some (Char.ofNat 0xFE84), joinL := false, joinR := true }),
    (Char.ofNat 0x0625, { isolated := Char.ofNat 0xFE87, final := some (Char.ofNat 0xFE88), joinL := false, joinR := true }),
    (Char.ofNat 0x0629, { isolated := Char.ofNat 0xFE93, final := some (Char.ofNat 0xFE94), joinL := false, joinR := true }) ]

/-- part_003's `MAP[ch]` lookup. -/
def MAP (c : Char) : Option Forms :=
  (mapList.find? (fun p => p.1 == c)).map (·.2)

def LAM : Char := Char.ofNat 0x0644
def ALEF : Char := Char.ofNat 0x0627
def ALEF_MADDA : Char := Char.ofNat 0x0622
def ALEF_HAMZA : Char := Char.ofNat 0x0623
def ALEF_HAMZA_BELOW : Char := Char.ofNat 0x0625

def LIG_LA : Char := Char.ofNat 0xFEFB
def LIG_LA_FINAL : Char := Char.ofNat 0xFEFC
def LIG_LA_MADDA : Char := Char.ofNat 0xFEF5
def LIG_LA_MADDA_FINAL : Char := Char.ofNat 0xFEF6
def LIG_LA_HAMZA : Char := Char.ofNat 0xFEF7
def LIG_LA_HAMZA_FINAL : Char := Char.ofNat 0xFEF8
def LIG_LA_HAMZA_BELOW : Char := Char.ofNat 0xFEF9
def LIG_LA_HAMZA_BELOW_FINAL : Char := Char.ofNat 0xFEFA

/-- part_003's `isArabicLetter`: the regex test `/[؀-ۿ]/`. -/
def isArabicLetter (c : Char) : Bool :=
  0x0600 ≤ c.toNat && c.toNat ≤ 0x06FF

/-- `isArabicLetter` applied to a possibly missing character (in the source a
missing `chars[i-1]`/`chars[i+1]` is `undefined`, or `prev` is `''`, and the
regex test is then false). -/
def isArabicLetterO : Option Char → Bool
  | none => false
  | some c => isArabicLetter c

/-- part_003's `canJoinPrev`: `!!(MAP[ch] && MAP[ch].joinR)`. -/
def canJoinPrev (c : Char) : Bool :=
  match MAP c with
  | some f => f.joinR
  | none => false

/-- part_003's `canJoinNext`: `!!(MAP[ch] && MAP[ch].joinL)`. -/
def canJoinNext (c : Char) : Bool :=
  match MAP c with
  | some f => f.joinL
  | none => false

def canJoinPrevO : Option Char → Bool
  | none => false
  | some c => canJoinPrev c

def canJoinNextO : Option Char → Bool
  | none => false
  | some c => canJoinNext c

/-- Is `c` one of the four alef variants accepted after lām by the ligature
branch of `shapeArabicText`? -/
def isAlefVariant (c : Char) : Bool :=
  c == ALEF || c == ALEF_MADDA || c == ALEF_HAMZA || c == ALEF_HAMZA_BELOW

/-- The ligature code point chosen by part_003 lines 86-90 for the alef
variant `a`, given the computed `prevCanJoin`. -/
def ligFor (a : Char) (prevCanJoin : Bool) : Char :=
  if a == ALEF_MADDA then (if prevCanJoin then LIG_LA_MADDA_FINAL else LIG_LA_MADDA)
  else if a == ALEF_HAMZA then (if prevCanJoin then LIG_LA_HAMZA_FINAL else LIG_LA_HAMZA)
  else if a == ALEF_HAMZA_BELOW then (if prevCanJoin then LIG_LA_HAMZA_BELOW_FINAL else LIG_LA_HAMZA_BELOW)
  else (if prevCanJoin then LIG_LA_FINAL else LIG_LA)

/-- part_003 lines 99-107: contextual form selection for a table letter.
`pi` is `chars[i-1]`, `next` is `chars[i+1]`; JavaScript truthiness of the
optional form strings becomes `Option.isSome`. -/
def selectForm (f : Forms) (pi : Option Char) (next : Option Char) : Char :=
  let joinsWithPrev := isArabicLetterO pi && canJoinNextO pi && f.joinR
  let joinsWithNext := isArabicLetterO next && f.joinL && canJoinPrevO next
  if joinsWithPrev && joinsWithNext && f.medial.isSome then f.medial.getD f.isolated
  else if joinsWithPrev && f.final.isSome then f.final.getD f.isolated
  else if joinsWithNext && f.initial.isSome then f.initial.getD f.isolated
  else f.isolated

/-- The scan loop of `shapeArabicText` (part_003 lines 78-108).
`po` is the last character already pushed to `out` (the source's `prev`),
`pi` is the input character consumed at the previous index (`chars[i-1]`). -/
def shapeGo : Option Char → Option Char → List Char → List Char
  | _, pi, [ch] =>
    (match MAP ch with
     | none => [ch]
     | some f => [selectForm f pi none])
  | po, pi, ch :: next :: rest =>
    if ch == LAM && isAlefVariant next then
      ligFor next (isArabicLetterO po && canJoinNextO po) ::
        shapeGo (some (ligFor next (isArabicLetterO po && canJoinNextO po))) (some next) rest
    else
      (match MAP ch with
       | none => ch :: shapeGo (some ch) (some ch) (next :: rest)
       | some f =>
         selectForm f pi (some next) ::
           shapeGo (some (selectForm f pi (some next))) (some ch) (next :: rest))
  | _, _, [] => []

/-- part_003's exported `shapeArabicText`. -/
def shapeArabicText (s : String) : String :=
  ⟨shapeGo none none s.data⟩

/-! ### part_003's `sanitizeArabicText`

The chain of `replace` calls is modelled stage by stage on `List Char`;
the regex character classes and the ECMAScript `\s` class are spelled out. -/

/-- The class `[ً-ٰٟۖ-ۭ]` (tashkeel and Quranic
annotation marks). -/
def isTashkeel (c : Char) : Bool :=
  (0x064B ≤ c.toNat && c.toNat ≤ 0x065F) || c.toNat == 0x0670 ||
    (0x06D6 ≤ c.toNat && c.toNat ≤ 0x06ED)

/-- The tatweel character `ـ`. -/
def isTatweel (c : Char) : Bool :=
  c.toNat == 0x0640

/-- The class `[​-‏‪-‮⁦-⁩﻿]` (zero-width
and bidi control marks). -/
def isZeroWidth (c : Char) : Bool :=
  (0x200B ≤ c.toNat && c.toNat ≤ 0x200F) || (0x202A ≤ c.toNat && c.toNat ≤ 0x202E) ||
    (0x2066 ≤ c.toNat && c.toNat ≤ 0x2069) || c.toNat == 0xFEFF

/-- A character kept by the three removal stages. -/
def keptChar (c : Char) : Bool :=
  !(isTashkeel c) && !(isTatweel c) && !(isZeroWidth c)

/-- `replace(/\?/g, '؟')` as a character map. -/
def repQuestion (c : Char) : Char :=
  if c == '?' then Char.ofNat 0x061F else c

/-- `replace(/;/g, '؛')` as a character map. -/
def repSemicolon (c : Char) : Char :=
  if c == ';' then Char.ofNat 0x061B else c

/-- The ECMAScript `\s` class (WhiteSpace ∪ LineTerminator), as used by
`/\s{2,}/` and `trim()`. -/
def isJsWs (c : Char) : Bool :=
  c.toNat == 0x9 || c.toNat == 0xA || c.toNat == 0xB || c.toNat == 0xC ||
    c.toNat == 0xD || c.toNat == 0x20 || c.toNat == 0xA0 || c.toNat == 0x1680 ||
    (0x2000 ≤ c.toNat && c.toNat ≤ 0x200A) || c.toNat == 0x2028 ||
    c.toNat == 0x2029 || c.toNat == 0x202F || c.toNat == 0x205F ||
    c.toNat == 0x3000 || c.toNat == 0xFEFF

/-- `replace(/\s{2,}/g, ' ')`: each maximal run of two or more `\s`
characters becomes a single space (the regex is greedy, matching is
leftmost, and scanning resumes after the replacement).  The flag is `true`
while inside a matched run whose replacement space has already been
emitted: further run characters are skipped, and the first character after
the run is processed normally. -/
def collapseAux : Bool → List Char → List Char
  | _, [] => []
  | true, c :: rest =>
    if isJsWs c then collapseAux true rest
    else c :: collapseAux false rest
  | false, [c] => [c]
  | false, c₁ :: c₂ :: rest =>
    if isJsWs c₁ && isJsWs c₂ then ' ' :: collapseAux true rest
    else c₁ :: collapseAux false (c₂ :: rest)

/-- The whitespace-collapsing stage, scanning from outside any run. -/
def collapseWs (l : List Char) : List Char := collapseAux false l

/-- `trim()`: drop `\s` from both ends. -/
def trimWs (l : List Char) : List Char :=
  (((l.dropWhile isJsWs).reverse.dropWhile isJsWs).reverse)

/-- part_003's exported `sanitizeArabicText`, stage by stage in source
order: the three removals, the two punctuation maps, the whitespace
collapse, and the final `trim()`. -/
def sanitizeList (l : List Char) : List Char :=
  trimWs (collapseWs (((l.filter keptChar).map repQuestion).map repSemicolon))

/-- part_003's exported `sanitizeArabicText` on strings. -/
def sanitizeArabicText (s : String) : String :=
  ⟨sanitizeList s.data⟩

/-! ### part_004: `ARABIC_FORMS`, `NON_CONNECTING_AFTER`, `shapeArabicLine`
and the jsPDF wrap / page-break loops -/

/-- Mirror of part_004's `Forms` interface: all four forms are present. -/
structure Forms2 where
  isolated : Char
  initial : Char
  medial : Char
  final : Char
deriving DecidableEq, Repr

/-- Mirror of part_004's `ARABIC_FORMS` literal, entry for entry. -/
def arabicFormsList : List (Char × Forms2) :=
  [ (Char.ofNat 0x0628, { isolated := Char.ofNat 0xFE8F, final := Char.ofNat 0xFE90, initial := Char.ofNat 0xFE91, medial := Char.ofNat 0xFE92 }),
    (Char.ofNat 0x062A, { isolated := Char.ofNat 0xFE95, final := Char.ofNat 0xFE96, initial := Char.ofNat 0xFE97, medial := Char.ofNat 0xFE98 }),
    (Char.ofNat 0x062B, { isolated := Char.ofNat 0xFE99, final := Char.ofNat 0xFE9A, initial := Char.ofNat 0xFE9B, medial := Char.ofNat 0xFE9C }),
    (Char.ofNat 0x062C, { isolated := Char.ofNat 0xFE9D, final := Char.ofNat 0xFE9E, initial := Char.ofNat 0xFE9F, medial := Char.ofNat 0xFEA0 }),
    (Char.ofNat 0x062D, { isolated := Char.ofNat 0xFEA1, final := Char.ofNat 0xFEA2, initial := Char.ofNat 0xFEA3, medial := Char.ofNat 0xFEA4 }),
    (Char.ofNat 0x062E, { isolated := Char.ofNat 0xFEA5, final := Char.ofNat 0xFEA6, initial := Char.ofNat 0xFEA7, medial := Char.ofNat 0xFEA8 }),
    (Char.ofNat 0x062F, { isolated := Char.ofNat 0xFEA9, final := Char.ofNat 0xFEAA, initial := Char.ofNat 0xFEA9, medial := Char.ofNat 0xFEAA }),
    (Char.ofNat 0x0630, { isolated := Char.ofNat 0xFEAB, final := Char.ofNat 0xFEAC, initial := Char.ofNat 0xFEAB, medial := Char.ofNat 0xFEAC }),
    (Char.ofNat 0x0631, { isolated := Char.ofNat 0xFEAD, final := Char.ofNat 0xFEAE, initial := Char.ofNat 0xFEAD, medial := Char.ofNat 0xFEAE }),
    (Char.ofNat 0x0632, { isolated := Char.ofNat 0xFEAF, final := Char.ofNat 0xFEB0, initial := Char.ofNat 0xFEAF, medial := Char.ofNat 0xFEB0 }),
    (Char.ofNat 0x0633, { isolated := Char.ofNat 0xFEB1, final := Char.ofNat 0xFEB2, initial := Char.ofNat 0xFEB3, medial := Char.ofNat 0xFEB4 }),
    (Char.ofNat 0x0634, { isolated := Char.ofNat 0xFEB5, final := Char.ofNat 0xFEB6, initial := Char.ofNat 0xFEB7, medial := Char.ofNat 0xFEB8 }),
    (Char.ofNat 0x0635, { isolated := Char.ofNat 0xFEB9, final := Char.ofNat 0xFEBA, initial := Char.ofNat 0xFEBB, medial := Char.ofNat 0xFEBC }),
    (Char.ofNat 0x0636, { isolated := Char.ofNat 0xFEBD, final := Char.ofNat 0xFEBE, initial := Char.ofNat 0xFEBF, medial := Char.ofNat 0xFEC0 }),
    (Char.ofNat 0x0637, { isolated := Char.ofNat 0xFEC1, final := Char.ofNat 0xFEC2, initial := Char.ofNat 0xFEC3, medial := Char.ofNat 0xFEC4 }),
    (Char.ofNat 0x0638, { isolated := Char.ofNat 0xFEC5, final := Char.ofNat 0xFEC6, initial := Char.ofNat 0xFEC7, medial := Char.ofNat 0xFEC8 }),
    (Char.ofNat 0x0639, { isolated := Char.ofNat 0xFEC9, final := Char.ofNat 0xFECA, initial := Char.ofNat 0xFECB, medial := Char.ofNat 0xFECC }),
    (Char.ofNat 0x063A, { isolated := Char.ofNat 0xFECD, final := Char.ofNat 0xFECE, initial := Char.ofNat 0xFECF, medial := Char.ofNat 0xFED0 }),
    (Char.ofNat 0x0641, { isolated := Char.ofNat 0xFED1, final := Char.ofNat 0xFED2, initial := Char.ofNat 0xFED3, medial := Char.ofNat 0xFED4 }),
    (Char.ofNat 0x0642, { isolated := Char.ofNat 0xFED5, final := Char.ofNat 0xFED6, initial := Char.ofNat 0xFED7, medial := Char.ofNat 0xFED8 }),
    (Char.ofNat 0x0643, { isolated := Char.ofNat 0xFED9, final := Char.ofNat 0xFEDA, initial := Char.ofNat 0xFEDB, medial := Char.ofNat 0xFEDC }),
    (Char.ofNat 0x0644, { isolated := Char.ofNat 0xFEDD, final := Char.ofNat 0xFEDE, initial := Char.ofNat 0xFEDF, medial := Char.ofNat 0xFEE0 }),
    (Char.ofNat 0x0645, { isolated := Char.ofNat 0xFEE1, final := Char.ofNat 0xFEE2, initial := Char.ofNat 0xFEE3, medial := Char.ofNat 0xFEE4 }),
    (Char.ofNat 0x0646, { isolated := Char.ofNat 0xFEE5, final := Char.ofNat 0xFEE6, initial := Char.ofNat 0xFEE7, medial := Char.ofNat 0xFEE8 }),
    (Char.ofNat 0x0647, { isolated := Char.ofNat 0xFEE9, final := Char.ofNat 0xFEEA, initial := Char.ofNat 0xFEEB, medial := Char.ofNat 0xFEEC }),
    (Char.ofNat 0x0648, { isolated := Char.ofNat 0xFEED, final := Char.ofNat 0xFEEE, initial := Char.ofNat 0xFEED, medial := Char.ofNat 0xFEEE }),
    (Char.ofNat 0x064A, { isolated := Char.ofNat 0xFEF1, final := Char.ofNat 0xFEF2, initial := Char.ofNat 0xFEF3, medial := Char.ofNat 0xFEF4 }),
    (Char.ofNat 0x0629, { isolated := Char.ofNat 0xFE93, final := Char.ofNat 0xFE94, initial := Char.ofNat 0xFE93, medial := Char.ofNat 0xFE94 }),
    (Char.ofNat 0x0627, { isolated := Char.ofNat 0xFE8D, final := Char.ofNat 0xFE8E, initial := Char.ofNat 0xFE8D, medial := Char.ofNat 0xFE8E }),
    (Char.ofNat 0x0623, { isolated := Char.ofNat 0xFE83, final := Char.ofNat 0xFE84, initial := Char.ofNat 0xFE83, medial := Char.ofNat 0xFE84 }),
    (Char.ofNat 0x0625, { isolated := Char.ofNat 0xFE87, final := Char.ofNat 0xFE88, initial := Char.ofNat 0xFE87, medial := Char.ofNat 0xFE88 }),
    (Char.ofNat 0x0622, { isolated := Char.ofNat 0xFE81, final := Char.ofNat 0xFE82, initial := Char.ofNat 0xFE81, medial := Char.ofNat 0xFE82 }) ]

/-- part_004's `ARABIC_FORMS[c]` lookup. -/
def ARABIC_FORMS (c : Char) : Option Forms2 :=
  (arabicFormsList.find? (fun p => p.1 == c)).map (·.2)

/-- part_004's `NON_CONNECTING_AFTER` set. -/
def nonConnectingAfter (c : Char) : Bool :=
  [Char.ofNat 0x0627, Char.ofNat 0x0623, Char.ofNat 0x0625, Char.ofNat 0x0622,
   Char.ofNat 0x062F, Char.ofNat 0x0630, Char.ofNat 0x0631, Char.ofNat 0x0632,
   Char.ofNat 0x0648, Char.ofNat 0x0629].contains c

/-- The per-character form choice of `shapeArabicLine` (part_004 lines
52-63). `prev` is `chars[i-1]`, `next` is `chars[i+1]`. -/
def formFor (prev : Option Char) (c : Char) (next : Option Char) : Char :=
  match ARABIC_FORMS c with
  | none => c
  | some f =>
    let cjp := (match prev with
                | some p => (ARABIC_FORMS p).isSome && !(nonConnectingAfter p)
                | none => false)
    let cjn := (match next with
                | some n => (ARABIC_FORMS n).isSome && !(nonConnectingAfter c)
                | none => false)
    if cjp && cjn then f.medial
    else if cjp && !cjn then f.final
    else if !cjp && cjn then f.initial
    else f.isolated

/-- The `shaped` array built by `shapeArabicLine`'s loop, before the final
RTL reversal. -/
def shapeCoreGo (prev : Option Char) : List Char → List Char
  | [] => []
  | c :: rest => formFor prev c rest.head? :: shapeCoreGo (some c) rest

/-- Does the line contain a character of the `/[؀-ۿ]/` block
(part_004 line 66)? -/
def hasArabicL (l : List Char) : Bool :=
  l.any isArabicLetter

/-- part_004's `shapeArabicLine`: shape every character by context, then
reverse the whole shaped array when the line contains Arabic. -/
def shapeArabicLine (s : String) : String :=
  let shaped := shapeCoreGo none s.data
  if hasArabicL s.data then ⟨shaped.reverse⟩ else ⟨shaped⟩

/-- part_004's manual wrap loop (lines 123-132).  The tentative line is
built right-to-left by *prepending* the incoming word (`w + ' ' + current`);
`m` stands for `doc.getTextWidth`. -/
def wrapRTLGo (m : String → ℚ) (maxW : ℚ) (cur : String) : List String → List String
  | [] => if cur = "" then [] else [cur]
  | w :: ws =>
    if maxW < m (if cur = "" then w else w ++ " " ++ cur) ∧ cur ≠ "" then
      cur :: wrapRTLGo m maxW w ws
    else wrapRTLGo m maxW (if cur = "" then w else w ++ " " ++ cur) ws

/-- part_004's page-break loop (lines 135-144): top-down cursor `y`
starting at `marginY = 18`, `lineHeight = 7`; a page holds pairs
(line, y-position). -/
def jsPagGo {α : Type} (pageHeight : ℚ) (y : ℚ) (cur : List (α × ℚ)) :
    List α → List (List (α × ℚ))
  | [] => [cur]
  | l :: ls =>
    if pageHeight - 18 < y + 7 then
      cur :: jsPagGo pageHeight (18 + 7) [(l, 18)] ls
    else
      jsPagGo pageHeight (y + 7) (cur ++ [(l, y)]) ls

/-- part_004's page-break loop run from a fresh document (`y = marginY`).
jsPDF documents start with one page, so the result always holds at least
the current page. -/
def jsPaginate {α : Type} (pageHeight : ℚ) (lines : List α) : List (List (α × ℚ)) :=
  jsPagGo pageHeight 18 [] lines

/-! ### exporters.ts, `exportPdf` pdf-lib fallback (lines 180-224) -/

/-- The fallback measure of exporters.ts line 186 when no font is embedded:
`t.length * fontSize * 0.55` with `fontSize = 12`. -/
def measureExp (s : String) : ℚ :=
  (s.length : ℚ) * 12 * (11 / 20)

/-- The word-wrap loop of exporters.ts lines 196-205, parametric in the
`measure` closure. -/
def wrapGo (m : String → ℚ) (maxW : ℚ) (cur : String) : List String → List String
  | [] => if cur = "" then [] else [cur]
  | w :: ws =>
    if m (if cur = "" then w else cur ++ " " ++ w) ≤ maxW then
      wrapGo m maxW (if cur = "" then w else cur ++ " " ++ w) ws
    else (if cur = "" then [] else [cur]) ++ wrapGo m maxW w ws

/-- The wrap loop started with `current = ''`. -/
def wrap (m : String → ℚ) (maxW : ℚ) (ws : List String) : List String :=
  wrapGo m maxW "" ws

/-- exporters.ts line 215: the character sequence actually handed to
`drawText` — the line's characters are reversed when the line contains an
Arabic code point. -/
def drawnPdfLib (l : List Char) : List Char :=
  if hasArabicL l then l.reverse else l

/-- exporters.ts lines 216-217: the x-origin of the drawn line
(`marginX = 48`); the reversal does not change the measured width. -/
def drawXExp (width : ℚ) (line : String) : ℚ :=
  if hasArabicL line.data then width - 48 - measureExp ⟨drawnPdfLib line.data⟩ else 48

/-- The pagination loop of exporters.ts lines 207-224: bottom-up cursor
starting at `height - marginY` (`marginY = 48`), stepped by
`fontSize + 4 = 16`; a new page is opened when `y < marginY`.  The first
page exists before the loop (line 180), hence the `[cur]` base case. -/
def exPagGo {α : Type} (height : ℚ) (y : ℚ) (cur : List (α × ℚ)) :
    List α → List (List (α × ℚ))
  | [] => [cur]
  | l :: ls =>
    if y < 48 then
      cur :: exPagGo height (height - 48 - 16) [(l, height - 48)] ls
    else
      exPagGo height (y - 16) (cur ++ [(l, y)]) ls

/-- exporters.ts pagination run from the top of the first page. -/
def exPaginate {α : Type} (height : ℚ) (lines : List α) : List (List (α × ℚ)) :=
  exPagGo height (height - 48) [] lines

/-! ### Definitions following the words of the claims (for comparison with
the source-derived definitions above) -/

/-- Join tokens with single spaces (how a wrap line relates to its words). -/
def joinSpace : List String → String
  | [] => ""
  | [t] => t
  | t :: ts => t ++ " " ++ joinSpace ts

/-- Claim C6's greedy accumulation, in the claim's own terms: keep a token
list and a running width; accept the next token while
`runningWidth + (spaceWidth if nonempty) + tokenWidth ≤ maxWidth`. -/
def greedyGo (w : String → ℚ) (sw maxW : ℚ) (cur : List String) (rw : ℚ) :
    List String → List (List String)
  | [] => if cur = [] then [] else [cur]
  | t :: ts =>
    if rw + (if cur = [] then 0 else sw) + w t ≤ maxW then
      greedyGo w sw maxW (cur ++ [t]) (rw + (if cur = [] then 0 else sw) + w t) ts
    else (if cur = [] then [] else [cur]) ++ greedyGo w sw maxW [t] (w t) ts

/-- Claim C6's greedy line breaker started from an empty line. -/
def greedyWrap (w : String → ℚ) (sw maxW : ℚ) (ts : List String) : List (List String) :=
  greedyGo w sw maxW [] 0 ts

/-- Claim C3's form selection rule, in the claim's own terms: medial when
the previous code point is a table letter with `joinsNext` and the current
letter joins backward AND the next code point is a table letter with
`joinsPrev` and the current letter joins forward; final on the
previous-side condition alone; initial on the next-side condition alone;
isolated otherwise. -/
def claimSelect (f : Forms) (pi next : Option Char) : Char :=
  let prevSide := canJoinNextO pi && f.joinR
  let nextSide := canJoinPrevO next && f.joinL
  if prevSide && nextSide then f.medial.getD f.isolated
  else if prevSide then f.final.getD f.isolated
  else if nextSide then f.initial.getD f.isolated
  else f.isolated

/-- Claim C5's pagination rule, in the claim's own terms: vertical cursor
starting at `pageHeight - marginTop`; before each line, if
`cursor - lineHeight < marginBottom`, close the page and reset the cursor
to `pageHeight - marginTop`; then place the line at the cursor and advance
by `lineHeight`. -/
def claimPagGo {α : Type} (pageHeight marginTop marginBottom lineHeight : ℚ)
    (c : ℚ) (cur : List (α × ℚ)) : List α → List (List (α × ℚ))
  | [] => [cur]
  | l :: ls =>
    if c - lineHeight < marginBottom then
      cur :: claimPagGo pageHeight marginTop marginBottom lineHeight
        (pageHeight - marginTop - lineHeight) [(l, pageHeight - marginTop)] ls
    else
      claimPagGo pageHeight marginTop marginBottom lineHeight
        (c - lineHeight) (cur ++ [(l, c)]) ls

/-- Claim C5's paginator, started with a fresh cursor. -/
def claimPaginate {α : Type} (pageHeight marginTop marginBottom lineHeight : ℚ)
    (lines : List α) : List (List (α × ℚ)) :=
  claimPagGo pageHeight marginTop marginBottom lineHeight (pageHeight - marginTop) [] lines

/-- The number of lām+alef pairs consumed by `shapeArabicText`'s ligature
branch (the branch fires on the current and next input character alone). -/
def ligPairs : List Char → ℕ
  | [] => 0
  | [_] => 0
  | c :: a :: rest =>
    if c == LAM && isAlefVariant a then 1 + ligPairs rest
    else ligPairs (a :: rest)

/-- Does the scan step at current character `ch` with lookahead `next` take
the lām+alef ligature branch? -/
def ligStep (ch : Char) (next : Option Char) : Bool :=
  ch == LAM && (match next with | some a => isAlefVariant a | none => false)

/-- Claim C3's four-way choice for part_004's total form table. -/
def claimSelect2 (f : Forms2) (prevSide nextSide : Bool) : Char :=
  if prevSide && nextSide then f.medial
  else if prevSide then f.final
  else if nextSide then f.initial
  else f.isolated

/-! ## Facts about the glyph form table -/

theorem MAP_mem {c : Char} {f : Forms} (h : MAP c = some f) : (c, f) ∈ mapList := by
  unfold MAP at h
  cases hf : mapList.find? (fun p => p.1 == c) with
  | none => simp [hf] at h
  | some p =>
    have hmem := List.mem_of_find?_eq_some hf
    have hpred := List.find?_some hf
    simp [hf] at h
    obtain ⟨c', f'⟩ := p
    simp at hpred h
    subst hpred h
    exact hmem

theorem table_facts : ∀ p ∈ mapList,
    ((p.2.joinL = true → p.2.initial.isSome ∧ p.2.medial.isSome) ∧
     (p.2.joinR = true → p.2.final.isSome) ∧
     (p.2.joinL = false → p.2.initial = none ∧ p.2.medial = none) ∧
     isArabicLetter p.1 = true) := by decide

theorem MAP_joinL_isSome {c : Char} {f : Forms} (h : MAP c = some f) :
    f.joinL = true → f.initial.isSome ∧ f.medial.isSome :=
  (table_facts _ (MAP_mem h)).1

theorem MAP_joinR_isSome {c : Char} {f : Forms} (h : MAP c = some f) :
    f.joinR = true → f.final.isSome :=
  (table_facts _ (MAP_mem h)).2.1

theorem MAP_joinL_false_none {c : Char} {f : Forms} (h : MAP c = some f) :
    f.joinL = false → f.initial = none ∧ f.medial = none :=
  (table_facts _ (MAP_mem h)).2.2.1

theorem MAP_key_arabic {c : Char} {f : Forms} (h : MAP c = some f) :
    isArabicLetter c = true :=
  (table_facts _ (MAP_mem h)).2.2.2

theorem canJoinNextO_arabic {o : Option Char} (h : canJoinNextO o = true) :
    isArabicLetterO o = true := by
  cases o with
  | none => simp [canJoinNextO] at h
  | some c =>
    simp only [canJoinNextO, canJoinNext] at h
    cases hm : MAP c with
    | none => rw [hm] at h; exact absurd h (by simp)
    | some f => exact MAP_key_arabic hm

theorem canJoinPrevO_arabic {o : Option Char} (h : canJoinPrevO o = true) :
    isArabicLetterO o = true := by
  cases o with
  | none => simp [canJoinPrevO] at h
  | some c =>
    simp only [canJoinPrevO, canJoinPrev] at h
    cases hm : MAP c with
    | none => rw [hm] at h; exact absurd h (by simp)
    | some f => exact MAP_key_arabic hm

/-- The source's `joinsWithPrev`/`joinsWithNext` guard chain coincides with
the claim's four-way rule: the `isArabicLetter` tests are redundant (every
table key is in the Arabic block) and the form-presence guards always pass
(`joinR` letters have a final form, `joinL` letters an initial and a
medial form). -/
theorem selectForm_eq_claimSelect {ch : Char} {f : Forms} (pi next : Option Char)
    (h : MAP ch = some f) : selectForm f pi next = claimSelect f pi next := by
  unfold selectForm claimSelect
  cases hjp : canJoinNextO pi with
  | false =>
    cases hjn : canJoinPrevO next with
    | false => simp [hjp, hjn]
    | true =>
      have ha := canJoinPrevO_arabic hjn
      cases hl : f.joinL with
      | false => simp [hjp, hjn, hl, ha]
      | true =>
        have hi := (MAP_joinL_isSome h hl).1
        simp [hjp, hjn, hl, ha, hi]
  | true =>
    have ha := canJoinNextO_arabic hjp
    cases hr : f.joinR with
    | false =>
      cases hjn : canJoinPrevO next with
      | false => simp [hjp, hjn, hr, ha]
      | true =>
        have ha' := canJoinPrevO_arabic hjn
        cases hl : f.joinL with
        | false => simp [hjp, hjn, hr, hl, ha, ha']
        | true =>
          have hi := (MAP_joinL_isSome h hl).1
          simp [hjp, hjn, hr, hl, ha, ha', hi]
    | true =>
      have hfin := MAP_joinR_isSome h hr
      cases hjn : canJoinPrevO next with
      | false => simp [hjp, hjn, hr, ha, hfin]
      | true =>
        have ha' := canJoinPrevO_arabic hjn
        cases hl : f.joinL with
        | false => simp [hjp, hjn, hr, hl, ha, ha', hfin]
        | true =>
          have hi := (MAP_joinL_isSome h hl).2
          simp [hjp, hjn, hr, hl, ha, ha', hi, hfin]

/-- The contextual branch always emits one of the current letter's table
forms. -/
theorem selectForm_cases (f : Forms) (pi next : Option Char) :
    selectForm f pi next = f.isolated ∨ f.initial = some (selectForm f pi next) ∨
      f.medial = some (selectForm f pi next) ∨ f.final = some (selectForm f pi next) := by
  unfold selectForm
  obtain ⟨iso, ini, med, fin, jl, jr⟩ := f
  cases ini <;> cases med <;> cases fin <;>
    (dsimp only; split_ifs <;> simp [Option.getD])

/-- The ligature branch always emits one of the eight lām-alef ligature
code points. -/
theorem MAP_ligFor_none (a : Char) (b : Bool) : MAP (ligFor a b) = none := by
  unfold ligFor
  split
  · cases b <;> decide
  · split
    · cases b <;> decide
    · split
      · cases b <;> decide
      · cases b <;> decide

theorem MAP_forms_not_keys : ∀ p ∈ mapList,
    MAP p.2.isolated = none ∧
    (∀ x ∈ p.2.initial.toList, MAP x = none) ∧
    (∀ x ∈ p.2.medial.toList, MAP x = none) ∧
    (∀ x ∈ p.2.final.toList, MAP x = none) := by decide

theorem MAP_selectForm_none {ch : Char} {f : Forms} (h : MAP ch = some f)
    (pi next : Option Char) : MAP (selectForm f pi next) = none := by
  have hm := selectForm_cases f pi next
  have hf := MAP_forms_not_keys _ (MAP_mem h)
  rcases hm with h1 | h1 | h1 | h1
  · rw [h1]; exact hf.1
  · exact hf.2.1 _ (by rw [h1]; simp)
  · exact hf.2.2.1 _ (by rw [h1]; simp)
  · exact hf.2.2.2 _ (by rw [h1]; simp)

/-- Every character in `shapeGo`'s output — ligature, presentation form or
passthrough — is outside the key set of `MAP`. -/
theorem shapeGo_not_key (po pi : Option Char) (l : List Char) :
    ∀ c ∈ shapeGo po pi l, MAP c = none := by
  induction po, pi, l using shapeGo.induct
  all_goals intro c hc
  case case1 po pi ch hm =>
    simp [shapeGo, hm] at hc
    rw [hc]; exact hm
  case case2 po pi ch f hm =>
    simp [shapeGo, hm] at hc
    rw [hc]; exact MAP_selectForm_none hm pi none
  case case3 po pi ch next rest hlig ih =>
    rw [shapeGo, if_pos hlig] at hc
    rcases List.mem_cons.1 hc with h1 | h1
    · rw [h1]; exact MAP_ligFor_none next _
    · exact ih c h1
  case case4 po pi ch next rest hlig hm ih =>
    rw [shapeGo, if_neg hlig, hm] at hc
    rcases List.mem_cons.1 hc with h1 | h1
    · rw [h1]; exact hm
    · exact ih c h1
  case case5 po pi ch next rest hlig f hm ih =>
    rw [shapeGo, if_neg hlig, hm] at hc
    rcases List.mem_cons.1 hc with h1 | h1
    · rw [h1]; exact MAP_selectForm_none hm pi (some next)
    · exact ih c h1
  case case6 po pi => simp [shapeGo] at hc

/-- `shapeGo` output and ligature count balance the input length. -/
theorem shapeGo_length (po pi : Option Char) (l : List Char) :
    (shapeGo po pi l).length + ligPairs l = l.length := by
  induction po, pi, l using shapeGo.induct
  all_goals simp_all [shapeGo, ligPairs]
  · omega
  all_goals (split <;> simp_all <;> omega)

/-- part_003's `Forms` entry for bā (U+0628). -/
def behForms : Forms :=
  { isolated := Char.ofNat 0xFE8F, initial := some (Char.ofNat 0xFE91),
    medial := some (Char.ofNat 0xFE92), final := some (Char.ofNat 0xFE90),
    joinL := true, joinR := true }

/-- part_003's `Forms` entry for dāl (U+062F). -/
def dalForms : Forms :=
  { isolated := Char.ofNat 0xFEA9, final := some (Char.ofNat 0xFEAA),
    joinL := false, joinR := true }

/-! ## Claim theorems for the shaping engine -/

/-- C1: evaluation of `shapeArabicText` at the claim's two inputs.  The
input lām+alef does shape to the single isolated ligature U+FEFB, but
bā+lām+alef shapes to bā's initial form followed by the *isolated* ligature
U+FEFB, not the final ligature U+FEFC the claim (and the code's own
dead `LIG_LA_FINAL` branch) intends: the `prevCanJoin` test inspects the
already-shaped output character, which is never a `MAP` key nor in the
U+0600–06FF block, so it is always false. -/
theorem C1_ligature_evaluation :
    shapeArabicText ⟨[Char.ofNat 0x0644, Char.ofNat 0x0627]⟩ = ⟨[Char.ofNat 0xFEFB]⟩ ∧
    shapeArabicText ⟨[Char.ofNat 0x0628, Char.ofNat 0x0644, Char.ofNat 0x0627]⟩ =
      ⟨[Char.ofNat 0xFE91, Char.ofNat 0xFEFB]⟩ ∧
    (⟨[Char.ofNat 0xFE91, Char.ofNat 0xFEFB]⟩ : String) ≠
      ⟨[Char.ofNat 0xFE91, Char.ofNat 0xFEFC]⟩ :=
  ⟨by decide, by decide, by decide⟩

/-- C3: at every scan step of `shapeArabicText` whose current character is
a table letter and which does not take the lām+alef ligature branch, the
emitted code point is selected from the neighbouring *input* code points
exactly by the claim's four-way rule (medial / final / initial / isolated);
and `shapeArabicLine` of part_004 selects by the analogous rule at every
table-letter position. -/
theorem C3_contextual_form_selection :
    (∀ (po pi : Option Char) (ch : Char) (rest : List Char) (f : Forms),
        MAP ch = some f → ligStep ch rest.head? = false →
        (shapeGo po pi (ch :: rest)).head? = some (claimSelect f pi rest.head?)) ∧
    (∀ (prev : Option Char) (c : Char) (next : Option Char) (f : Forms2),
        ARABIC_FORMS c = some f →
        formFor prev c next =
          claimSelect2 f
            (match prev with
             | some p => (ARABIC_FORMS p).isSome && !(nonConnectingAfter p)
             | none => false)
            ((match next with
              | some n => (ARABIC_FORMS n).isSome
              | none => false) && !(nonConnectingAfter c))) := by
  constructor
  · intro po pi ch rest f hm hlig
    cases rest with
    | nil =>
      simp only [shapeGo, hm, List.head?]
      rw [selectForm_eq_claimSelect pi none hm]
    | cons next rest' =>
      have hcond : ¬((ch == LAM && isAlefVariant next) = true) := by
        simpa [ligStep] using hlig
      rw [shapeGo, if_neg hcond, hm]
      simp only [List.head?]
      rw [selectForm_eq_claimSelect pi (some next) hm]
  · intro prev c next f hm
    cases prev <;> cases next <;>
      simp only [formFor, hm, claimSelect2] <;>
      split_ifs <;> simp_all

/-- Witness for C3 at a concrete step: bā at the end of the input, no
neighbour, yields its isolated form. -/
theorem C3_contextual_form_selection_witness :
    MAP (Char.ofNat 0x0628) = some behForms ∧
    ligStep (Char.ofNat 0x0628) none = false ∧
    (shapeGo none none [Char.ofNat 0x0628]).head? =
      some (claimSelect behForms none none) :=
  ⟨by decide, by decide,
   C3_contextual_form_selection.1 none none _ [] behForms (by decide) (by decide)⟩

/-- C7: no output character of `shapeArabicText` is the initial or medial
form of a letter whose `joinL` (joinsNext) flag is false — the table
assigns such letters no initial or medial form at all. -/
theorem C7_no_initial_medial_for_nonjoining (s : String) (c : Char)
    (ch : Char) (f : Forms) (hc : c ∈ (shapeArabicText s).data)
    (h : MAP ch = some f) (hl : f.joinL = false) :
    f.initial ≠ some c ∧ f.medial ≠ some c := by
  have hnone := MAP_joinL_false_none h hl
  rw [hnone.1, hnone.2]
  exact ⟨by simp, by simp⟩

/-- Witness for C7: dāl shaped alone emits its isolated form, which is
neither an initial nor a medial form of dāl. -/
theorem C7_no_initial_medial_for_nonjoining_witness :
    Char.ofNat 0xFEA9 ∈ (shapeArabicText ⟨[Char.ofNat 0x062F]⟩).data ∧
    MAP (Char.ofNat 0x062F) = some dalForms ∧ dalForms.joinL = false ∧
    (dalForms.initial ≠ some (Char.ofNat 0xFEA9) ∧
      dalForms.medial ≠ some (Char.ofNat 0xFEA9)) :=
  ⟨by decide, by decide, by decide,
   C7_no_initial_medial_for_nonjoining ⟨[Char.ofNat 0x062F]⟩ (Char.ofNat 0xFEA9)
     (Char.ofNat 0x062F) dalForms (by decide) (by decide) (by decide)⟩

/-- C9: every scan step emits exactly one code point while consuming one
code point or a ligated lām+alef pair, so the output length plus the
number of ligated pairs equals the input length; in particular the output
never exceeds the input. -/
theorem C9_length_accounting :
    (∀ (po pi : Option Char) (l : List Char),
        (shapeGo po pi l).length + ligPairs l = l.length) ∧
    (∀ s : String, (shapeArabicText s).length + ligPairs s.data = s.length) ∧
    (∀ s : String, (shapeArabicText s).length ≤ s.length) := by
  refine ⟨shapeGo_length, fun s => shapeGo_length none none s.data, fun s => ?_⟩
  have := shapeGo_length none none s.data
  have hlen : (shapeArabicText s).length = (shapeGo none none s.data).length := rfl
  have hslen : s.length = s.data.length := rfl
  omega

/-- C10: the output of `shapeArabicText` contains no key of the glyph form
table: every table letter is replaced by a presentation form or consumed
into a lām-alef ligature, and only non-table code points pass through. -/
theorem C10_no_table_keys_in_output (s : String) (c : Char)
    (h : c ∈ (shapeArabicText s).data) : MAP c = none :=
  shapeGo_not_key none none s.data c h

/-- Witness for C10: the ligature emitted for lām+alef is not a table
key. -/
theorem C10_no_table_keys_in_output_witness :
    Char.ofNat 0xFEFB ∈
      (shapeArabicText ⟨[Char.ofNat 0x0644, Char.ofNat 0x0627]⟩).data ∧
    MAP (Char.ofNat 0xFEFB) = none :=
  ⟨by decide,
   C10_no_table_keys_in_output ⟨[Char.ofNat 0x0644, Char.ofNat 0x0627]⟩
     (Char.ofNat 0xFEFB) (by decide)⟩

/-! ## Sanitizer lemmas -/

/-- No two adjacent `\s` characters. -/
def noDoubleWs (l : List Char) : Prop :=
  l.Chain' (fun a b => ¬(isJsWs a = true ∧ isJsWs b = true))

theorem head?_dropWhile_false (p : Char → Bool) :
    ∀ (l : List Char) (d : Char), (l.dropWhile p).head? = some d → p d = false := by
  intro l
  induction l with
  | nil => simp [List.dropWhile]
  | cons a l ih =>
    intro d h
    rw [List.dropWhile_cons] at h
    split at h
    · exact ih d h
    · simp at h
      subst h
      rename_i hp
      simpa using hp

theorem dropWhile_eq_self_of_head (p : Char → Bool) (l : List Char)
    (h : ∀ d, l.head? = some d → p d = false) : l.dropWhile p = l := by
  cases l with
  | nil => rfl
  | cons a l =>
    rw [List.dropWhile_cons, if_neg]
    simp [h a rfl]

theorem head?_collapseAux_true :
    ∀ (l : List Char) (d : Char), (collapseAux true l).head? = some d → isJsWs d = false := by
  intro l
  induction l with
  | nil => intro d h; cases h
  | cons c rest ih =>
    intro d h
    simp only [collapseAux] at h
    split at h
    · exact ih d h
    · simp at h
      rename_i hc
      rw [← h]
      simpa using hc

theorem collapseAux_false_head_cases (c : Char) (rest : List Char) :
    (collapseAux false (c :: rest)).head? = some c ∨
    ((collapseAux false (c :: rest)).head? = some ' ' ∧ isJsWs c = true) := by
  cases rest with
  | nil => left; rfl
  | cons c₂ r =>
    simp only [collapseAux]
    split
    · right
      rename_i h
      rw [Bool.and_eq_true] at h
      exact ⟨rfl, h.1⟩
    · left; rfl

theorem collapseAux_noDoubleWs : ∀ (b : Bool) (l : List Char), noDoubleWs (collapseAux b l) := by
  intro b l
  induction b, l using collapseAux.induct with
  | case1 b => simp only [collapseAux]; exact List.chain'_nil
  | case2 c rest h ih =>
    simpa only [collapseAux, if_pos h] using ih
  | case3 c rest h ih =>
    rw [show collapseAux true (c :: rest) = c :: collapseAux false rest by
          simp only [collapseAux]; rw [if_neg h]]
    rw [noDoubleWs, List.chain'_cons']
    refine ⟨?_, ih⟩
    intro b _ hx
    exact h hx.1
  | case4 c =>
    unfold noDoubleWs
    rw [show collapseAux false [c] = [c] from rfl]
    exact List.chain'_singleton _
  | case5 c₁ c₂ rest h ih =>
    rw [show collapseAux false (c₁ :: c₂ :: rest) = ' ' :: collapseAux true rest by
          simp only [collapseAux]; rw [if_pos h]]
    rw [noDoubleWs, List.chain'_cons']
    refine ⟨?_, ih⟩
    intro b hb hx
    have hb' : (collapseAux true rest).head? = some b := by simpa using hb
    have := head?_collapseAux_true rest b hb'
    rw [hx.2] at this
    cases this
  | case6 c₁ c₂ rest h ih =>
    rw [show collapseAux false (c₁ :: c₂ :: rest) = c₁ :: collapseAux false (c₂ :: rest) by
          simp only [collapseAux]; rw [if_neg h]]
    rw [noDoubleWs, List.chain'_cons']
    refine ⟨?_, ih⟩
    intro b hb hx
    rcases collapseAux_false_head_cases c₂ rest with h1 | ⟨h1, hw2⟩
    · rw [h1] at hb
      simp at hb
      subst hb
      exact h (by simp [hx.1, hx.2])
    · rw [h1] at hb
      simp at hb
      subst hb
      exact h (by simp [hx.1, hw2])

theorem mem_collapseAux {c : Char} : ∀ (b : Bool) (l : List Char),
    c ∈ collapseAux b l → c ∈ l ∨ c = ' ' := by
  intro b l
  induction b, l using collapseAux.induct with
  | case1 b => intro h; simp only [collapseAux] at h; cases h
  | case2 c₁ rest h ih =>
    intro hc
    rw [show collapseAux true (c₁ :: rest) = collapseAux true rest by
          simp only [collapseAux]; rw [if_pos h]] at hc
    rcases ih hc with h2 | h2
    · left; exact List.mem_cons_of_mem _ h2
    · right; exact h2
  | case3 c₁ rest h ih =>
    intro hc
    rw [show collapseAux true (c₁ :: rest) = c₁ :: collapseAux false rest by
          simp only [collapseAux]; rw [if_neg h]] at hc
    rcases List.mem_cons.1 hc with h1 | h1
    · left; exact h1 ▸ List.mem_cons_self _ _
    · rcases ih h1 with h2 | h2
      · left; exact List.mem_cons_of_mem _ h2
      · right; exact h2
  | case4 c₁ =>
    intro hc
    left
    simpa only [collapseAux] using hc
  | case5 c₁ c₂ rest h ih =>
    intro hc
    rw [show collapseAux false (c₁ :: c₂ :: rest) = ' ' :: collapseAux true rest by
          simp only [collapseAux]; rw [if_pos h]] at hc
    rcases List.mem_cons.1 hc with h1 | h1
    · right; exact h1
    · rcases ih h1 with h2 | h2
      · left; exact List.mem_cons_of_mem _ (List.mem_cons_of_mem _ h2)
      · right; exact h2
  | case6 c₁ c₂ rest h ih =>
    intro hc
    rw [show collapseAux false (c₁ :: c₂ :: rest) = c₁ :: collapseAux false (c₂ :: rest) by
          simp only [collapseAux]; rw [if_neg h]] at hc
    rcases List.mem_cons.1 hc with h1 | h1
    · left; exact h1 ▸ List.mem_cons_self _ _
    · rcases ih h1 with h2 | h2
      · left; exact List.mem_cons_of_mem _ h2
      · right; exact h2

theorem collapseAux_false_eq_self : ∀ l : List Char, noDoubleWs l → collapseAux false l = l := by
  intro l
  induction l with
  | nil => intro _; rfl
  | cons a l ih =>
    intro hnd
    cases l with
    | nil => rfl
    | cons c₂ r =>
      rw [noDoubleWs, List.chain'_cons'] at hnd
      have hcond : ¬((isJsWs a && isJsWs c₂) = true) := by
        rw [Bool.and_eq_true]
        intro hx
        exact hnd.1 c₂ rfl ⟨hx.1, hx.2⟩
      rw [show collapseAux false (a :: c₂ :: r) = a :: collapseAux false (c₂ :: r) by
            simp only [collapseAux]; rw [if_neg hcond]]
      rw [ih hnd.2]

theorem mem_collapseWs {c : Char} {l : List Char} (h : c ∈ collapseWs l) : c ∈ l ∨ c = ' ' :=
  mem_collapseAux false l h

theorem collapseWs_noDoubleWs (l : List Char) : noDoubleWs (collapseWs l) :=
  collapseAux_noDoubleWs false l

theorem collapseWs_eq_self (l : List Char) (h : noDoubleWs l) : collapseWs l = l :=
  collapseAux_false_eq_self l h

theorem mem_of_mem_trimWs {c : Char} {l : List Char} (h : c ∈ trimWs l) : c ∈ l := by
  unfold trimWs at h
  rw [List.mem_reverse] at h
  have h2 : c ∈ (l.dropWhile isJsWs).reverse := (List.dropWhile_sublist _).subset h
  rw [List.mem_reverse] at h2
  exact (List.dropWhile_sublist _).subset h2

theorem trimWs_front (l : List Char) : trimWs l <+: l.dropWhile isJsWs := by
  unfold trimWs
  rw [← List.reverse_suffix]
  simpa using List.dropWhile_suffix isJsWs

theorem noDoubleWs_trimWs {l : List Char} (h : noDoubleWs l) : noDoubleWs (trimWs l) :=
  List.Chain'.prefix (h.suffix (List.dropWhile_suffix isJsWs)) (trimWs_front l)

theorem trimWs_head_false (l : List Char) (d : Char) (h : (trimWs l).head? = some d) :
    isJsWs d = false := by
  obtain ⟨r, hr⟩ := trimWs_front l
  apply head?_dropWhile_false isJsWs l d
  rw [← hr]
  cases ht : trimWs l with
  | nil => rw [ht] at h; cases h
  | cons a t =>
    rw [ht] at h
    simp at h
    subst h
    rfl

theorem trimWs_idempotent (l : List Char) : trimWs (trimWs l) = trimWs l := by
  have h1 : (trimWs l).dropWhile isJsWs = trimWs l :=
    dropWhile_eq_self_of_head _ _ (trimWs_head_false l)
  have h2 : (trimWs l).reverse.dropWhile isJsWs = (trimWs l).reverse := by
    unfold trimWs
    rw [List.reverse_reverse, List.dropWhile_idempotent]
  show ((((trimWs l).dropWhile isJsWs).reverse).dropWhile isJsWs).reverse = trimWs l
  rw [h1, h2, List.reverse_reverse]

/-- Every character of the sanitized output is kept by the removal stages
and is neither an ASCII question mark nor an ASCII semicolon. -/
theorem sanitizeList_chars (l : List Char) :
    ∀ c ∈ sanitizeList l, keptChar c = true ∧ c ≠ '?' ∧ c ≠ ';' := by
  intro c hc
  unfold sanitizeList at hc
  have h1 := mem_of_mem_trimWs hc
  rcases mem_collapseWs h1 with h2 | h2
  · rcases List.mem_map.1 h2 with ⟨d, hd, rfl⟩
    rcases List.mem_map.1 hd with ⟨e, he, rfl⟩
    have hke : keptChar e = true := List.of_mem_filter he
    unfold repQuestion repSemicolon
    split_ifs with hq hs hs
    · exact ⟨by decide, by decide, by decide⟩
    · exact ⟨by decide, by decide, by decide⟩
    · exact ⟨by decide, by decide, by decide⟩
    · refine ⟨hke, ?_, ?_⟩
      · intro hx; exact absurd (by simp [hx]) hq
      · intro hx; exact absurd (by simp [hx]) hs
  · subst h2
    exact ⟨by decide, by decide, by decide⟩

theorem sanitizeList_noDoubleWs (l : List Char) : noDoubleWs (sanitizeList l) :=
  noDoubleWs_trimWs (collapseWs_noDoubleWs _)

/-- `sanitizeList` is idempotent. -/
theorem sanitizeList_idem (l : List Char) :
    sanitizeList (sanitizeList l) = sanitizeList l := by
  have hch := sanitizeList_chars l
  have hfix1 : (sanitizeList l).filter keptChar = sanitizeList l :=
    List.filter_eq_self.2 (fun a ha => (hch a ha).1)
  have hfix2 : ((sanitizeList l).map repQuestion) = sanitizeList l := by
    rw [show sanitizeList l = (sanitizeList l).map id by rw [List.map_id]]
    rw [List.map_id]
    refine (List.map_congr_left ?_).trans (List.map_id _)
    intro a ha
    unfold repQuestion
    rw [if_neg]
    · rfl
    · simp [(hch a ha).2.1]
  have hfix3 : ((sanitizeList l).map repSemicolon) = sanitizeList l := by
    refine (List.map_congr_left ?_).trans (List.map_id _)
    intro a ha
    unfold repSemicolon
    rw [if_neg]
    · rfl
    · simp [(hch a ha).2.2]
  have hfix4 : collapseWs (sanitizeList l) = sanitizeList l :=
    collapseWs_eq_self _ (sanitizeList_noDoubleWs l)
  have hfix5 : trimWs (sanitizeList l) = sanitizeList l := by
    show trimWs (trimWs (collapseWs (((l.filter keptChar).map repQuestion).map
      repSemicolon))) = _
    rw [trimWs_idempotent]
    rfl
  have h0 : sanitizeList (sanitizeList l) =
      trimWs (collapseWs ((((sanitizeList l).filter keptChar).map repQuestion).map
        repSemicolon)) := rfl
  rw [h0, hfix1, hfix2, hfix3, hfix4, hfix5]

/-- C8: `sanitize` is idempotent — a second application changes nothing;
in particular the Arabic question mark, the Arabic semicolon and the single
spaces produced by collapsing are fixed under a second pass. -/
theorem C8_sanitize_idempotent (s : String) :
    sanitizeArabicText (sanitizeArabicText s) = sanitizeArabicText s :=
  congrArg String.mk (sanitizeList_idem s.data)

/-! ## Wrap-loop lemmas -/

/-- The natural width of a token line: token widths plus one space gap
between consecutive tokens. -/
def lineW (w : String → ℚ) (sw : ℚ) (l : List String) : ℚ :=
  (l.map w).sum + sw * ((l.length - 1 : ℕ) : ℚ)

theorem measureExp_append (a b : String) :
    measureExp (a ++ b) = measureExp a + measureExp b := by
  unfold measureExp
  rw [String.length_append]
  push_cast
  ring

theorem joinSpace_append (w : String) :
    ∀ ts : List String, ts ≠ [] → joinSpace (ts ++ [w]) = joinSpace ts ++ " " ++ w := by
  intro ts
  induction ts with
  | nil => intro h; exact absurd rfl h
  | cons a ts ih =>
    intro _
    cases ts with
    | nil => rfl
    | cons b ts' =>
      show a ++ " " ++ joinSpace ((b :: ts') ++ [w]) = (a ++ " " ++ joinSpace (b :: ts')) ++ " " ++ w
      rw [ih (by simp)]
      simp [String.append_assoc]

theorem joinSpace_length : ∀ ts : List String, ts ≠ [] →
    (joinSpace ts).length = (ts.map String.length).sum + (ts.length - 1) := by
  intro ts
  induction ts with
  | nil => intro h; exact absurd rfl h
  | cons a ts ih =>
    intro _
    cases ts with
    | nil => simp [joinSpace]
    | cons b ts' =>
      show (a ++ " " ++ joinSpace (b :: ts')).length = _
      rw [String.length_append, String.length_append, ih (by simp)]
      have hsp : (" " : String).length = 1 := rfl
      simp [hsp]
      omega

theorem joinSpace_ne_empty (ts : List String) (hne : ts ≠ [])
    (hts : ∀ t ∈ ts, t ≠ "") : joinSpace ts ≠ "" := by
  intro h
  have hlen : (joinSpace ts).length = 0 := by rw [h]; rfl
  rw [joinSpace_length ts hne] at hlen
  cases ts with
  | nil => exact hne rfl
  | cons a ts' =>
    have ha : a ≠ "" := hts a (List.mem_cons_self _ _)
    have ha' : 0 < a.length := by
      cases hd : a.data with
      | nil => exact absurd (by cases a; simp at hd; simp [hd]) ha
      | cons x xs =>
        show 0 < a.data.length
        rw [hd]; simp
    simp at hlen
    omega

theorem measureExp_joinSpace_append (ts : List String) (w : String) (hne : ts ≠ []) :
    measureExp (joinSpace (ts ++ [w])) =
      measureExp (joinSpace ts) + measureExp " " + measureExp w := by
  rw [joinSpace_append w ts hne, measureExp_append, measureExp_append]

/-- The exporters.ts wrap loop equals the claim's greedy token
accumulation under the fallback measure (widths are additive in the token
list, with one space width per gap). -/
theorem wrapGo_eq_greedyGo (maxW : ℚ) :
    ∀ (ws ts : List String) (rw : ℚ), ts ≠ [] → (∀ t ∈ ts, t ≠ "") →
      (∀ t ∈ ws, t ≠ "") → rw = measureExp (joinSpace ts) →
      wrapGo measureExp maxW (joinSpace ts) ws =
        (greedyGo measureExp (measureExp " ") maxW ts rw ws).map joinSpace := by
  intro ws
  induction ws with
  | nil =>
    intro ts rw hne hts _ _
    rw [wrapGo, greedyGo, if_neg (joinSpace_ne_empty ts hne hts), if_neg hne]
    rfl
  | cons w ws ih =>
    intro ts rw hne hts hws hrw
    have hw : w ≠ "" := hws w (List.mem_cons_self _ _)
    have hws' : ∀ t ∈ ws, t ≠ "" := fun t ht => hws t (List.mem_cons_of_mem _ ht)
    have hjne : joinSpace ts ≠ "" := joinSpace_ne_empty ts hne hts
    have hmeas : rw + measureExp " " + measureExp w =
        measureExp (joinSpace (ts ++ [w])) := by
      rw [measureExp_joinSpace_append ts w hne, hrw]
    simp only [wrapGo, greedyGo, if_neg hjne, if_neg hne]
    rw [show joinSpace ts ++ " " ++ w = joinSpace (ts ++ [w]) from
          (joinSpace_append w ts hne).symm]
    by_cases hc : measureExp (joinSpace (ts ++ [w])) ≤ maxW
    · rw [if_pos hc, if_pos (by rw [hmeas]; exact hc)]
      refine ih (ts ++ [w]) _ (by simp) ?_ hws' hmeas
      intro t ht
      rcases List.mem_append.1 ht with h1 | h1
      · exact hts t h1
      · simp at h1; subst h1; exact hw
    · rw [if_neg hc, if_neg (by rw [hmeas]; exact hc)]
      rw [List.map_append]
      congr 1
      exact ih [w] _ (by simp) (by intro t ht; simp at ht; subst ht; exact hw) hws' rfl

theorem wrap_eq_greedyWrap (maxW : ℚ) (ws : List String) (hws : ∀ t ∈ ws, t ≠ "") :
    wrap measureExp maxW ws =
      (greedyWrap measureExp (measureExp " ") maxW ws).map joinSpace := by
  cases ws with
  | nil => rfl
  | cons w ws' =>
    have hw : w ≠ "" := hws w (List.mem_cons_self _ _)
    have hws' : ∀ t ∈ ws', t ≠ "" := fun t ht => hws t (List.mem_cons_of_mem _ ht)
    unfold wrap greedyWrap
    simp only [wrapGo, greedyGo, eq_self_iff_true, ite_true, zero_add, List.nil_append]
    by_cases hc : measureExp w ≤ maxW
    · rw [if_pos hc, if_pos hc]
      exact wrapGo_eq_greedyGo maxW ws' [w] _ (by simp)
        (by intro t ht; simp at ht; subst ht; exact hw) hws' rfl
    · rw [if_neg hc, if_neg hc]
      exact wrapGo_eq_greedyGo maxW ws' [w] _ (by simp)
        (by intro t ht; simp at ht; subst ht; exact hw) hws' rfl

theorem greedyGo_join (w : String → ℚ) (sw maxW : ℚ) :
    ∀ (ws cur : List String) (rw : ℚ), (greedyGo w sw maxW cur rw ws).flatten = cur ++ ws := by
  intro ws
  induction ws with
  | nil =>
    intro cur rw
    rw [greedyGo]
    by_cases hc : cur = []
    · rw [if_pos hc, hc]; rfl
    · rw [if_neg hc]; simp
  | cons t ts ih =>
    intro cur rw
    rw [greedyGo]
    by_cases hc : rw + (if cur = [] then 0 else sw) + w t ≤ maxW
    · rw [if_pos hc, ih]; simp
    · rw [if_neg hc, List.flatten_append, ih]
      by_cases hcc : cur = []
      · rw [if_pos hcc, hcc]; rfl
      · rw [if_neg hcc]; simp

theorem lineW_append (w : String → ℚ) (sw : ℚ) (cur : List String) (t : String) :
    lineW w sw (cur ++ [t]) = lineW w sw cur + (if cur = [] then 0 else sw) + w t := by
  cases cur with
  | nil => simp [lineW]
  | cons a cur' =>
    rw [if_neg (by simp)]
    unfold lineW
    simp only [List.map_append, List.sum_append, List.length_append, List.length_cons,
      List.map_cons, List.sum_cons, List.map_nil, List.sum_nil, List.length_nil]
    have h1 : cur'.length + 1 + 1 - 1 = cur'.length + 1 := by omega
    have h2 : cur'.length + 1 - 1 = cur'.length := by omega
    rw [h1, h2]
    push_cast
    ring

theorem greedyGo_line_bound (w : String → ℚ) (sw maxW : ℚ) (hw : ∀ t, 0 ≤ w t) :
    ∀ (ws cur : List String) (rw : ℚ), rw = lineW w sw cur →
      (cur = [] ∨ rw ≤ maxW ∨ ∃ t, cur = [t]) →
      ∀ l ∈ greedyGo w sw maxW cur rw ws, lineW w sw l ≤ maxW ∨ ∃ t, l = [t] := by
  intro ws
  induction ws with
  | nil =>
    intro cur rw hrw hinv l hl
    rw [greedyGo] at hl
    by_cases hc : cur = []
    · rw [if_pos hc] at hl; cases hl
    · rw [if_neg hc] at hl
      simp at hl
      subst hl
      rcases hinv with h2 | h2 | h2
      · exact absurd h2 hc
      · left; rw [← hrw]; exact h2
      · right; exact h2
  | cons t ts ih =>
    intro cur rw hrw hinv l hl
    rw [greedyGo] at hl
    by_cases hc : rw + (if cur = [] then 0 else sw) + w t ≤ maxW
    · rw [if_pos hc] at hl
      refine ih (cur ++ [t]) _ ?_ ?_ l hl
      · rw [lineW_append, ← hrw]
      · right; left; exact hc
    · rw [if_neg hc] at hl
      rcases List.mem_append.1 hl with h1 | h1
      · by_cases hcc : cur = []
        · rw [if_pos hcc] at h1; cases h1
        · rw [if_neg hcc] at h1
          simp at h1
          subst h1
          rcases hinv with h2 | h2 | h2
          · exact absurd h2 hcc
          · left; rw [← hrw]; exact h2
          · right; exact h2
      · refine ih [t] (w t) ?_ ?_ l h1
        · simp [lineW]
        · right; right; exact ⟨t, rfl⟩

theorem measureExp_nonneg (t : String) : 0 ≤ measureExp t := by
  unfold measureExp
  positivity

/-- The alef character as a one-letter token. -/
def alefS : String := ⟨[Char.ofNat 0x0627]⟩

/-- C6: the exporters.ts wrap loop is exactly the claim's greedy line
breaker under the fallback measure: tokens accumulate while
`runningWidth + (spaceWidth if nonempty) + tokenWidth ≤ maxWidth`; the
concatenation of the produced lines is the original token sequence (no
token dropped or reordered, and the function is total so nothing throws);
the empty token list yields zero lines; and every produced line either
fits within `maxWidth` or is a single (overflowing) token on its own
line. -/
theorem C6_greedy_wrap :
    (∀ (maxW : ℚ) (ws : List String), (∀ t ∈ ws, t ≠ "") →
        wrap measureExp maxW ws =
          (greedyWrap measureExp (measureExp " ") maxW ws).map joinSpace) ∧
    (∀ (w : String → ℚ) (sw maxW : ℚ) (ws : List String),
        (greedyWrap w sw maxW ws).flatten = ws) ∧
    (∀ (m : String → ℚ) (maxW : ℚ), wrap m maxW [] = []) ∧
    (∀ (maxW : ℚ) (ws : List String) (l : List String),
        l ∈ greedyWrap measureExp (measureExp " ") maxW ws →
        lineW measureExp (measureExp " ") l ≤ maxW ∨ ∃ t, l = [t]) := by
  refine ⟨wrap_eq_greedyWrap, ?_, fun m maxW => rfl, ?_⟩
  · intro w sw maxW ws
    rw [greedyWrap, greedyGo_join]
    rfl
  · intro maxW ws l hl
    exact greedyGo_line_bound measureExp (measureExp " ") maxW measureExp_nonneg
      ws [] 0 (by simp [lineW]) (Or.inl rfl) l hl

/-- Witness for C6 at three one-letter tokens and `maxWidth = 20`. -/
theorem C6_greedy_wrap_witness :
    (∀ t ∈ [alefS, alefS, alefS], t ≠ "") ∧
    wrap measureExp 20 [alefS, alefS, alefS] =
      (greedyWrap measureExp (measureExp " ") 20 [alefS, alefS, alefS]).map joinSpace :=
  ⟨by decide, C6_greedy_wrap.1 20 [alefS, alefS, alefS] (by decide)⟩

/-! ## C2: justification -/

theorem measureExp_joinSpace : ∀ ts : List String, ts ≠ [] →
    measureExp (joinSpace ts) =
      (ts.map measureExp).sum + measureExp " " * ((ts.length - 1 : ℕ) : ℚ) := by
  intro ts
  induction ts with
  | nil => intro h; exact absurd rfl h
  | cons a ts ih =>
    intro _
    cases ts with
    | nil => simp [joinSpace]
    | cons b ts' =>
      show measureExp (a ++ " " ++ joinSpace (b :: ts')) = _
      rw [measureExp_append, measureExp_append, ih (by simp)]
      simp only [List.map_cons, List.sum_cons, List.length_cons]
      have h1 : ts'.length + 1 + 1 - 1 = ts'.length + 1 := by omega
      have h2 : ts'.length + 1 - 1 = ts'.length := by omega
      rw [h1, h2]
      push_cast
      ring

theorem measureExp_reverse (l : List Char) :
    measureExp ⟨l.reverse⟩ = measureExp ⟨l⟩ := by
  unfold measureExp
  have : (⟨l.reverse⟩ : String).length = (⟨l⟩ : String).length := by
    show l.reverse.length = l.length
    exact List.length_reverse l
  rw [this]

/-- C2 (counterexample): with the fallback measure and `maxLineWidth = 20`
(page width 116, `marginX = 48`), the token list [ا, ا, ا] wraps into the
non-final two-token line "ا ا" followed by "ا".  The claim's formula makes
each gap `33/5 + 1/5 = 34/5` so that the line fills exactly 20; the code
draws the line as one string at natural spacing: its width is `99/5 ≠ 20`,
its inter-word gap is the space width `33/5 ≠ 34/5`, and its x-origin is
`116 - 48 - 99/5 = 241/5`, not the `116 - 48 - 20 = 48` exact filling
would give. -/
theorem C2_justification_cex :
    wrap measureExp 20 [alefS, alefS, alefS] = [alefS ++ " " ++ alefS, alefS] ∧
    measureExp (alefS ++ " " ++ alefS) = 99 / 5 ∧
    ((99 : ℚ) / 5) ≠ 20 ∧
    measureExp " " + max 0 (20 - (measureExp alefS + measureExp alefS) -
      measureExp " " * (2 - 1)) / max (2 - 1) 1 = 34 / 5 ∧
    measureExp " " ≠ 34 / 5 ∧
    drawXExp 116 (alefS ++ " " ++ alefS) = 241 / 5 ∧
    ((241 : ℚ) / 5) ≠ 116 - 48 - 20 := by
  have hm1 : measureExp alefS = 33 / 5 := by
    have : alefS.length = 1 := by decide
    unfold measureExp
    rw [this]
    norm_num
  have hm2 : measureExp (alefS ++ " " ++ alefS) = 99 / 5 := by
    have : (alefS ++ " " ++ alefS).length = 3 := by decide
    unfold measureExp
    rw [this]
    norm_num
  have hmsp : measureExp " " = 33 / 5 := by
    have : (" " : String).length = 1 := by decide
    unfold measureExp
    rw [this]
    norm_num
  refine ⟨?_, hm2, by norm_num, ?_, ?_, ?_, by norm_num⟩
  · have h1 : alefS ≠ "" := by decide
    have h2 : alefS ++ " " ++ alefS ≠ "" := by decide
    have l1 : alefS.length = 1 := by decide
    have l2 : (alefS ++ " " ++ alefS).length = 3 := by decide
    have l3 : ((alefS ++ " " ++ alefS) ++ " " ++ alefS).length = 5 := by decide
    simp [wrap, wrapGo, measureExp, h1, h2, l1, l2, l3]
    norm_num
  · rw [hmsp, hm1]
    norm_num
  · rw [hmsp]
    norm_num
  · have ha : hasArabicL (alefS ++ " " ++ alefS).data = true := by decide
    unfold drawXExp drawnPdfLib
    rw [if_pos ha, if_pos ha, measureExp_reverse, hm2]
    norm_num

/-- C2 (amended): wrapped lines are drawn unjustified at natural spacing —
under the fallback measure a line of tokens `ts` measures
`Σ width + spaceWidth·(k-1)`, and the pdf-lib fallback places it
right-aligned at `x = width - marginX - lineWidth`; no extra inter-word
space is distributed and the line fills `maxWidth` only when its natural
width happens to equal it. -/
theorem C2_natural_spacing (width : ℚ) (ts : List String)
    (hne : ts ≠ []) (hts : ∀ t ∈ ts, t ≠ "")
    (ha : hasArabicL (joinSpace ts).data = true) :
    measureExp (joinSpace ts) =
      (ts.map measureExp).sum + measureExp " " * ((ts.length - 1 : ℕ) : ℚ) ∧
    drawXExp width (joinSpace ts) =
      width - 48 - ((ts.map measureExp).sum +
        measureExp " " * ((ts.length - 1 : ℕ) : ℚ)) := by
  have hj := measureExp_joinSpace ts hne
  refine ⟨hj, ?_⟩
  unfold drawXExp drawnPdfLib
  rw [if_pos ha, if_pos ha, measureExp_reverse]
  rw [show measureExp ⟨(joinSpace ts).data⟩ = measureExp (joinSpace ts) from rfl, hj]

/-- Witness for the amended C2 at two alef tokens on a 116-wide page. -/
theorem C2_natural_spacing_witness :
    ([alefS, alefS] ≠ ([] : List String)) ∧
    hasArabicL (joinSpace [alefS, alefS]).data = true ∧
    (measureExp (joinSpace [alefS, alefS]) =
        ([alefS, alefS].map measureExp).sum +
          measureExp " " * ((([alefS, alefS] : List String).length - 1 : ℕ) : ℚ) ∧
     drawXExp 116 (joinSpace [alefS, alefS]) =
        116 - 48 - (([alefS, alefS].map measureExp).sum +
          measureExp " " * ((([alefS, alefS] : List String).length - 1 : ℕ) : ℚ))) :=
  ⟨by decide, by decide,
   C2_natural_spacing 116 [alefS, alefS] (by decide) (by decide) (by decide)⟩

/-! ## C4: emission order -/

/-- C4 (counterexample): the input "اب" is shaped per character to
[FE8D, FE8F], but `shapeArabicLine` returns the *reversed* sequence
[FE8F, FE8D]; likewise the pdf-lib fallback hands `drawText` the reversed
character sequence of an Arabic line.  Emission order is not the original
left-to-right array order. -/
theorem C4_order_cex :
    shapeArabicLine ⟨[Char.ofNat 0x0627, Char.ofNat 0x0628]⟩ =
      ⟨[Char.ofNat 0xFE8F, Char.ofNat 0xFE8D]⟩ ∧
    shapeCoreGo none [Char.ofNat 0x0627, Char.ofNat 0x0628] =
      [Char.ofNat 0xFE8D, Char.ofNat 0xFE8F] ∧
    ([Char.ofNat 0xFE8F, Char.ofNat 0xFE8D] : List Char) ≠
      [Char.ofNat 0xFE8D, Char.ofNat 0xFE8F] ∧
    drawnPdfLib [Char.ofNat 0x0627, Char.ofNat 0x0628] =
      [Char.ofNat 0x0628, Char.ofNat 0x0627] ∧
    ([Char.ofNat 0x0628, Char.ofNat 0x0627] : List Char) ≠
      [Char.ofNat 0x0627, Char.ofNat 0x0628] :=
  ⟨by decide, by decide, by decide, by decide, by decide⟩

/-- C4 (amended): for Arabic content the code reverses order before
drawing — `shapeArabicLine` returns the reverse of the per-character
shaped sequence, the pdf-lib fallback draws the reverse of the line's
characters, and the jsPDF wrap builds each line by *prepending* the
accepted token (`w + ' ' + current`); right-to-left appearance comes from
this reversal together with right-aligned placement. -/
theorem C4_reversal :
    (∀ s : String, hasArabicL s.data = true →
        (shapeArabicLine s).data = (shapeCoreGo none s.data).reverse) ∧
    (∀ l : List Char, hasArabicL l = true → drawnPdfLib l = l.reverse) ∧
    (∀ (m : String → ℚ) (maxW : ℚ) (cur w : String) (ws : List String),
        cur ≠ "" → ¬(maxW < m (w ++ " " ++ cur)) →
        wrapRTLGo m maxW cur (w :: ws) = wrapRTLGo m maxW (w ++ " " ++ cur) ws) ∧
    (∀ (m : String → ℚ) (maxW : ℚ) (cur w : String) (ws : List String),
        cur ≠ "" → maxW < m (w ++ " " ++ cur) →
        wrapRTLGo m maxW cur (w :: ws) = cur :: wrapRTLGo m maxW w ws) := by
  refine ⟨?_, ?_, ?_, ?_⟩
  · intro s h
    unfold shapeArabicLine
    rw [if_pos h]
  · intro l h
    unfold drawnPdfLib
    rw [if_pos h]
  · intro m maxW cur w ws h1 h2
    rw [wrapRTLGo, if_neg (by rw [if_neg h1]; exact fun hx => h2 hx.1), if_neg h1]
  · intro m maxW cur w ws h1 h2
    rw [wrapRTLGo, if_pos (by rw [if_neg h1]; exact ⟨h2, h1⟩)]

/-- Witness for the amended C4 on the line "اب". -/
theorem C4_reversal_witness :
    hasArabicL (⟨[Char.ofNat 0x0627, Char.ofNat 0x0628]⟩ : String).data = true ∧
    (shapeArabicLine ⟨[Char.ofNat 0x0627, Char.ofNat 0x0628]⟩).data =
      (shapeCoreGo none
        (⟨[Char.ofNat 0x0627, Char.ofNat 0x0628]⟩ : String).data).reverse :=
  ⟨by decide, C4_reversal.1 ⟨[Char.ofNat 0x0627, Char.ofNat 0x0628]⟩ (by decide)⟩

/-! ## C5: pagination -/

theorem exPagGo_ne_nil {α : Type} (h : ℚ) :
    ∀ (ls : List α) (y : ℚ) (cur : List (α × ℚ)), exPagGo h y cur ls ≠ [] := by
  intro ls
  induction ls with
  | nil => intro y cur; simp [exPagGo]
  | cons l ls ih =>
    intro y cur
    rw [exPagGo]
    by_cases hc : y < 48
    · rw [if_pos hc]; simp
    · rw [if_neg hc]; exact ih _ _

theorem jsPagGo_ne_nil {α : Type} (p : ℚ) :
    ∀ (ls : List α) (y : ℚ) (cur : List (α × ℚ)), jsPagGo p y cur ls ≠ [] := by
  intro ls
  induction ls with
  | nil => intro y cur; simp [jsPagGo]
  | cons l ls ih =>
    intro y cur
    rw [jsPagGo]
    by_cases hc : p - 18 < y + 7
    · rw [if_pos hc]; simp
    · rw [if_neg hc]; exact ih _ _

theorem jsPagGo_eq_claimPagGo {α : Type} (p : ℚ) :
    ∀ (ls : List α) (c : ℚ) (cur : List (α × ℚ)),
      jsPagGo p (p - c) (cur.map (fun q => (q.1, p - q.2))) ls =
        (claimPagGo p 18 18 7 c cur ls).map (List.map (fun q => (q.1, p - q.2))) := by
  intro ls
  induction ls with
  | nil => intro c cur; rw [jsPagGo, claimPagGo]; rfl
  | cons l ls ih =>
    intro c cur
    rw [jsPagGo, claimPagGo]
    by_cases hc : c - 7 < 18
    · rw [if_pos (by linarith : p - 18 < (p - c) + 7), if_pos hc]
      rw [List.map_cons]
      congr 1
      have e1 : (18 : ℚ) + 7 = p - (p - 18 - 7) := by ring
      have e2 : [((l : α), (18 : ℚ))] =
          ([(l, p - 18)].map (fun q : α × ℚ => (q.1, p - q.2))) := by
        simp
      rw [e1, e2]
      exact ih (p - 18 - 7) [(l, p - 18)]
    · rw [if_neg (by intro hx; exact hc (by linarith)), if_neg hc]
      have e1 : (p - c) + 7 = p - (c - 7) := by ring
      have e2 : cur.map (fun q : α × ℚ => (q.1, p - q.2)) ++ [(l, p - c)] =
          (cur ++ [(l, c)]).map (fun q : α × ℚ => (q.1, p - q.2)) := by
        simp
      rw [e1, e2]
      exact ih (c - 7) (cur ++ [(l, c)])

theorem exPagGo_bound {α : Type} (h : ℚ) (hh : 48 + 48 ≤ h) :
    ∀ (ls : List α) (y : ℚ) (cur : List (α × ℚ)), y ≤ h - 48 →
      (∀ pl ∈ cur, 48 ≤ pl.2 ∧ pl.2 ≤ h - 48) →
      ∀ pl ∈ (exPagGo h y cur ls).flatten, 48 ≤ pl.2 ∧ pl.2 ≤ h - 48 := by
  intro ls
  induction ls with
  | nil =>
    intro y cur _ hcur pl hpl
    rw [exPagGo] at hpl
    simp at hpl
    exact hcur pl hpl
  | cons l ls ih =>
    intro y cur hy hcur pl hpl
    rw [exPagGo] at hpl
    by_cases hc : y < 48
    · rw [if_pos hc] at hpl
      rw [List.flatten_cons] at hpl
      rcases List.mem_append.1 hpl with h1 | h1
      · exact hcur pl h1
      · refine ih (h - 48 - 16) [(l, h - 48)] (by linarith) ?_ pl h1
        intro q hq
        simp at hq
        subst hq
        constructor
        · show (48 : ℚ) ≤ h - 48
          linarith
        · show h - 48 ≤ h - 48
          linarith
    · rw [if_neg hc] at hpl
      refine ih (y - 16) (cur ++ [(l, y)]) (by linarith) ?_ pl hpl
      intro q hq
      rcases List.mem_append.1 hq with h1 | h1
      · exact hcur q h1
      · simp at h1
        subst h1
        exact ⟨by linarith, hy⟩

/-- C5 (counterexample): at page height 112 with two lines, the pdf-lib
fallback places the second line on the first page at cursor 48 although
`48 - 16 < 48`; the claim's rule would have opened a new page first. -/
theorem C5_pagination_cex :
    exPaginate (112 : ℚ) [0, 1] = [[((0 : ℕ), (64 : ℚ)), (1, 48)]] ∧
    claimPaginate (112 : ℚ) 48 48 16 [0, 1] = [[((0 : ℕ), (64 : ℚ))], [(1, 64)]] ∧
    ([[((0 : ℕ), (64 : ℚ)), (1, 48)]] : List (List (ℕ × ℚ))) ≠
      [[(0, 64)], [(1, 64)]] := by
  refine ⟨by norm_num [exPaginate, exPagGo], by norm_num [claimPaginate, claimPagGo], ?_⟩
  intro hx
  simpa using congrArg List.length hx

/-- C5 (amended): both pagination loops always yield at least one page
(an empty page for zero lines); part_004's jsPDF loop implements exactly
the claimed rule — its top-down test `y + lineHeight > pageHeight - marginY`
is the claimed `cursor - lineHeight < marginBottom` under
`cursor = pageHeight - y` with `marginTop = marginBottom = 18` and
`lineHeight = 7`; the pdf-lib fallback instead opens a new page when
`cursor < marginY` — still, on a page at least `2·marginY` tall, every
baseline it places lies between `marginY` and `pageHeight - marginY`. -/
theorem C5_pagination_amended :
    (∀ (α : Type) (h : ℚ) (lines : List α),
        exPaginate h lines ≠ [] ∧ jsPaginate h lines ≠ []) ∧
    (∀ (α : Type) (p : ℚ) (lines : List α),
        jsPaginate p lines =
          (claimPaginate p 18 18 7 lines).map (List.map (fun q => (q.1, p - q.2)))) ∧
    (∀ (α : Type) (h : ℚ) (lines : List α) (pl : α × ℚ), 48 + 48 ≤ h →
        pl ∈ (exPaginate h lines).flatten → 48 ≤ pl.2 ∧ pl.2 ≤ h - 48) := by
  refine ⟨?_, ?_, ?_⟩
  · intro α h lines
    exact ⟨exPagGo_ne_nil h lines _ _, jsPagGo_ne_nil h lines _ _⟩
  · intro α p lines
    unfold jsPaginate claimPaginate
    have hkey := jsPagGo_eq_claimPagGo p lines (p - 18) ([] : List (α × ℚ))
    rw [show p - (p - 18) = (18 : ℚ) by ring] at hkey
    exact hkey
  · intro α h lines pl hh hpl
    exact exPagGo_bound h hh lines (h - 48) [] (by linarith) (by simp) pl hpl

/-- Witness for the amended C5: the single placement on a height-112 page
sits at cursor 64, inside the margins. -/
theorem C5_pagination_amended_witness :
    ((48 : ℚ) + 48 ≤ 112 ∧ ((0 : ℕ), (64 : ℚ)) ∈ (exPaginate (112 : ℚ) [0]).flatten) ∧
    (48 ≤ (64 : ℚ) ∧ (64 : ℚ) ≤ 112 - 48) :=
  ⟨⟨by norm_num, by norm_num [exPaginate, exPagGo]⟩,
   C5_pagination_amended.2.2 ℕ 112 [0] (0, 64) (by norm_num)
     (by norm_num [exPaginate, exPagGo])⟩

end ArabicOCR
